import Mathlib

/-!
Verification of the shmempipe shared-memory request/response transport
(`src/libs/shmempipe/src/lib.rs`).

The embedding is a sequential (single-interleaving) model of the owner and
worker operations.  Ring buffers are modelled as bounded byte queues
(the external `ringbuf` crate's contract, spec section 4.1); the eventfd
semaphores are modelled as counters (spec section 4.2, the `shared` module
is not part of the sources under inspection).  Machine integers are `Nat`
with explicit `% 2^32` where the code relies on wrapping.  Loops that the
code runs until progress are modelled with fuel and return `Option`:
`none` stands for a panic or for an execution that cannot make progress
in the sequential model.
-/

namespace Shmempipe

/-- Capacity of the owner-to-worker ring (`TO_WORKER_LEN` in the source). -/
def TO_WORKER_LEN : Nat := 32 * 4096

/-- Capacity of the worker-to-owner ring (`FROM_WORKER_LEN` in the source). -/
def FROM_WORKER_LEN : Nat := 4 * 4096

/-- Source constant `USE_EVENTFD_ON_RESPONSE`. -/
def USE_EVENTFD_ON_RESPONSE : Bool := true

/-- Modelled from the spec: the external `ringbuf` SPSC ring (spec 4.1), a
bounded FIFO byte queue.  `data` lists the bytes currently in the ring in
pop order; `cap` is the fixed capacity. -/
structure Rb where
  cap : Nat
  data : List Nat
deriving Repr, DecidableEq

/-- Modelled from the spec: `push_slice` copies as many bytes as fit in the
free space and returns the count (possibly 0). -/
def Rb.pushSlice (rb : Rb) (src : List Nat) : Rb × Nat :=
  let n := min (rb.cap - rb.data.length) src.length
  ({ rb with data := rb.data ++ src.take n }, n)

/-- Modelled from the spec: `pop_slice` pops at most `len` bytes. -/
def Rb.popSlice (rb : Rb) (len : Nat) : Rb × List Nat :=
  let n := min len rb.data.length
  ({ rb with data := rb.data.drop n }, rb.data.take n)

/-- Free space of a ring. -/
def Rb.free (rb : Rb) : Nat := rb.cap - rb.data.length

/-- The shared region state used by the transport operations: the `magic`
word, the `to_worker_waiters` counter, the two eventfd semaphore counters
(modelled from the spec as counting semaphores) and the two rings. -/
structure Shm where
  magic : Nat
  toWorkerWaiters : Nat
  notifyWorkerSem : Nat
  notifyOwnerSem : Nat
  toWorker : Rb
  fromWorker : Rb
deriving Repr, DecidableEq

/-- Region state right after `create`/`initialize_at`: magic published,
no waiters, both rings empty, both semaphores at zero. -/
def initShm : Shm :=
  { magic := 0xcafebabe
  , toWorkerWaiters := 0
  , notifyWorkerSem := 0
  , notifyOwnerSem := 0
  , toWorker := ⟨TO_WORKER_LEN, []⟩
  , fromWorker := ⟨FROM_WORKER_LEN, []⟩ }

/-- Little-endian bytes of a 64-bit value, as produced by
`u64::to_ne_bytes` on the little-endian targets the pipe runs on. -/
def u64le (n : Nat) : List Nat :=
  [ n % 2^8, n / 2^8 % 2^8, n / 2^16 % 2^8, n / 2^24 % 2^8
  , n / 2^32 % 2^8, n / 2^40 % 2^8, n / 2^48 % 2^8, n / 2^56 % 2^8 ]

/-- Value of an 8-byte little-endian buffer (`u64::from_ne_bytes`). -/
def leVal8 (bs : List Nat) : Nat :=
  bs.getD 0 0 + 2^8 * bs.getD 1 0 + 2^16 * bs.getD 2 0 + 2^24 * bs.getD 3 0
  + 2^32 * bs.getD 4 0 + 2^40 * bs.getD 5 0 + 2^48 * bs.getD 6 0
  + 2^56 * bs.getD 7 0

/-- `u64::try_from` on a `usize` value: fails exactly above `u64::MAX`. -/
def u64TryFrom (n : Nat) : Option Nat := if n < 2^64 then some n else none

/-- Wrapping decrement of a `u32` (`fetch_sub(1)` on an `AtomicU32`). -/
def wrapSub32 (n : Nat) : Nat := (n + (2^32 - 1)) % 2^32

/-- Wrapping increment of a `u32`. -/
def wrapAdd32 (n : Nat) : Nat := (n + 1) % 2^32

/-- Result of one `send`-closure loop of `send_request`: the ring after the
pushes, the `might_wait` flag, the number of `notify_worker` posts issued
inside the loop, and whether the buffer was fully pushed within the fuel
(in the sequential model a full ring never drains, so exhausted fuel means
the real loop spins forever). -/
structure LoopOut where
  rb : Rb
  mw : Bool
  posts : Nat
  ok : Bool
deriving Repr, DecidableEq

/-- The `send` closure of `OwnedRequester::send_request`: push until the
buffer is drained; whenever a push returns 0 while `might_wait` is still
set, post `notify_worker` once and clear the flag. -/
def sendLoop (fuel : Nat) (rb : Rb) (buf : List Nat) (mw : Bool) (posts : Nat) :
    LoopOut :=
  match fuel with
  | 0 => ⟨rb, mw, posts, false⟩
  | fuel + 1 =>
    let pr := rb.pushSlice buf
    let rest := buf.drop pr.2
    if rest.isEmpty then ⟨pr.1, mw, posts, true⟩
    else if pr.2 = 0 then
      if mw then sendLoop fuel pr.1 rest false (posts + 1)
      else sendLoop fuel pr.1 rest mw posts
    else sendLoop fuel pr.1 rest mw posts

/-- Result of `OwnedRequester::send_request`. -/
structure SendResult where
  ticket : Nat
  counter : Nat
  postsDuring : Nat
  postsAfter : Nat
  ok : Bool
  shm : Shm
deriving Repr, DecidableEq

/-- `OwnedRequester::send_request`: under the producer lock, increment
`to_worker_waiters` (remembering whether the pre-value was zero), take the
ticket, push the 8-byte length frame and then the payload with the `send`
closure, and after releasing the lock post `notify_worker` if `might_wait`
is still set.  `none` models the `expect` on `u64::try_from`. -/
def sendRequest (st : Shm) (counter : Nat) (req : List Nat) : Option SendResult :=
  match u64TryFrom req.length with
  | none => none
  | some frameLen =>
    let mw0 : Bool := st.toWorkerWaiters = 0
    let waiters1 := wrapAdd32 st.toWorkerWaiters
    let id := counter
    let counter' := wrapAdd32 counter
    let o1 := sendLoop 3 st.toWorker (u64le frameLen) mw0 0
    let o2 := sendLoop 3 o1.rb req o1.mw o1.posts
    let postsAfter := if o2.mw then 1 else 0
    some { ticket := id
         , counter := counter'
         , postsDuring := o2.posts
         , postsAfter := postsAfter
         , ok := o1.ok && o2.ok
         , shm := { st with
                      toWorkerWaiters := waiters1
                    , toWorker := o2.rb
                    , notifyWorkerSem := st.notifyWorkerSem + o2.posts + postsAfter } }

/-- The poll loop of `OwnedResponder::recv`: pop from the to-worker ring
until strictly more than `readMoreThan` bytes have been read.  If the call
may sleep and `to_worker_waiters` is zero, the worker blocks on
`notify_worker.wait()`; in the sequential model nobody can post, so that
is `none`.  Exhausted fuel models an endless spin. -/
def recvLoop (fuel : Nat) (st : Shm) (acc : List Nat) (bufLen readMoreThan : Nat)
    (canWait waited : Bool) : Option (List Nat × Shm) :=
  match fuel with
  | 0 => none
  | fuel + 1 =>
    let pr := st.toWorker.popSlice (bufLen - acc.length)
    let acc' := acc ++ pr.2
    let st' := { st with toWorker := pr.1 }
    if readMoreThan < acc'.length then some (acc', st')
    else if !waited && canWait && st'.toWorkerWaiters = 0 then none
    else recvLoop fuel st' acc' bufLen readMoreThan canWait waited

/-- `OwnedResponder::recv`. -/
def recv (st : Shm) (bufLen readMoreThan : Nat) (canWait : Bool) :
    Option (List Nat × Shm) :=
  recvLoop 3 st [] bufLen readMoreThan canWait false

/-- The body part of `OwnedResponder::read` after the frame length is
known: return 0 for an empty buffer, otherwise pop at most
`min buf.len() remaining` bytes and decrement `remaining`, clearing the
frame when it reaches zero. -/
def workerReadBody (st : Shm) (r : Option (Nat × Nat)) (bufLen : Nat) :
    Option (Nat × List Nat × Option (Nat × Nat) × Shm) :=
  if bufLen = 0 then some (0, [], r, st)
  else
    match r with
    | none => none
    | some (flen, rem) =>
      match recv st (min bufLen rem) 0 false with
      | none => none
      | some (chunk, st') =>
        if chunk.length ≤ rem then
          let rem' := rem - chunk.length
          some (chunk.length, chunk,
                if rem' = 0 then none else some (flen, rem'), st')
        else none

/-- `OwnedResponder::read`: when no frame is in progress, first receive
exactly 8 header bytes (sleeping allowed), assert the upper 4 bytes are
zero, convert to `u32` and store `(len, len)`; then run the body. -/
def workerRead (st : Shm) (r : Option (Nat × Nat)) (bufLen : Nat) :
    Option (Nat × List Nat × Option (Nat × Nat) × Shm) :=
  match r with
  | some _ => workerReadBody st r bufLen
  | none =>
    match recv st 8 7 true with
    | none => none
    | some (raw, st1) =>
      if raw.length = 8 then
        if raw.drop 4 = [0, 0, 0, 0] then
          let len := leVal8 raw
          if len < 2^32 then workerReadBody st1 (some (len, len)) bufLen
          else none
        else none
      else none

/-- `OwnedResponder::read_next_frame_len`: with a frame in progress return
its remaining byte count as the error; otherwise read a fresh header via
`read` on an empty buffer and return the new length. -/
def readNextFrameLen (st : Shm) (r : Option (Nat × Nat)) :
    Option (Except Nat Nat × Option (Nat × Nat) × Shm) :=
  match r with
  | some (flen, rem) => some (Except.error rem, some (flen, rem), st)
  | none =>
    match workerRead st none 0 with
    | none => none
    | some (n, _, r', st') =>
      if n = 0 then
        match r' with
        | some (len, rem) =>
          if len = rem then some (Except.ok rem, r', st') else none
        | none => none
      else none

/-- `OwnedResponder::read_exact`: requires a frame in progress and a buffer
at least `remaining` long; receives exactly `remaining` bytes and clears
the frame.  `remaining = 0` is `none`: `remaining as usize - 1` underflows
(a panic in debug builds; in release the degenerate `recv` never returns). -/
def readExact (st : Shm) (r : Option (Nat × Nat)) (bufLen : Nat) :
    Option (Nat × List Nat × Option (Nat × Nat) × Shm) :=
  match r with
  | none => none
  | some (_, rem) =>
    if rem ≤ bufLen then
      if rem = 0 then none
      else
        match recv st rem (rem - 1) false with
        | none => none
        | some (chunk, st') =>
          if chunk.length = rem then some (rem, chunk, none, st') else none
    else none

/-- Observable side effects emitted by `write_all`, in program order. -/
inductive Ev where
  | postOwner
  | decWaiters
deriving Repr, DecidableEq

/-- The push loop of `OwnedResponder::write_all`. -/
def writeAllLoop (fuel : Nat) (st : Shm) (buf : List Nat) (len : Nat) :
    Option (Nat × List Ev × Shm) :=
  match fuel with
  | 0 => none
  | fuel + 1 =>
    let pr := st.fromWorker.pushSlice buf
    let rest := buf.drop pr.2
    let st' := { st with fromWorker := pr.1 }
    if rest.isEmpty then
      let st2 :=
        if USE_EVENTFD_ON_RESPONSE
        then { st' with notifyOwnerSem := st'.notifyOwnerSem + 1 }
        else st'
      let st3 := { st2 with toWorkerWaiters := wrapSub32 st2.toWorkerWaiters }
      some (len,
            (if USE_EVENTFD_ON_RESPONSE then [Ev.postOwner] else []) ++ [Ev.decWaiters],
            st3)
    else writeAllLoop fuel st' rest len

/-- `OwnedResponder::write_all`: push every byte into the from-worker ring,
then post `notify_owner` and only afterwards decrement `to_worker_waiters`. -/
def writeAll (st : Shm) (buf : List Nat) : Option (Nat × List Ev × Shm) :=
  writeAllLoop 3 st buf buf.length

/-- The pop loop of `OwnedRequester::recv_response`: pop from the
from-worker ring until exactly `respLen` bytes were copied. -/
def popRespLoop (fuel : Nat) (st : Shm) (acc : List Nat) (respLen : Nat) :
    Option (List Nat × Shm) :=
  match fuel with
  | 0 => none
  | fuel + 1 =>
    let pr := st.fromWorker.popSlice (respLen - acc.length)
    let acc' := acc ++ pr.2
    let st' := { st with fromWorker := pr.1 }
    if acc'.length = respLen then some (acc', st')
    else popRespLoop fuel st' acc' respLen

/-- `OwnedRequester::recv_response`: optionally wait once on `notify_owner`
(blocking, hence `none`, when its counter is zero in the sequential model),
then pop the caller-supplied number of response bytes. -/
def recvResponse (st : Shm) (respLen : Nat) : Option (List Nat × Shm) :=
  if USE_EVENTFD_ON_RESPONSE then
    match st.notifyOwnerSem with
    | 0 => none
    | k + 1 => popRespLoop 3 { st with notifyOwnerSem := k } [] respLen
  else popRespLoop 3 st [] respLen

/-- The priority wakeup queue `UnparkInOrder`, a `BinaryHeap` of
`HeapEntry(Reverse ticket, thread)` whose `Ord` compares only the reversed
ticket, so the heap root is the entry with the least ticket.  The heap is
modelled as a list kept sorted by ascending ticket; threads are their
numeric ids. -/
def heapInsert (e : Nat × Nat) : List (Nat × Nat) → List (Nat × Nat)
  | [] => [e]
  | x :: xs => if e.1 < x.1 then e :: x :: xs else x :: heapInsert e xs

/-- `BinaryHeap::peek`: the root, the entry with the least ticket. -/
def heapPeek (h : List (Nat × Nat)) : Option (Nat × Nat) := h.head?

/-- `UnparkInOrder::unpark_front`: peek and, only when the root's ticket
equals `turn`, unpark (return) its thread; otherwise a no-op (`none`). -/
def unparkFront (h : List (Nat × Nat)) (turn : Nat) : Option Nat :=
  match h.head? with
  | some (id, t) => if id = turn then some t else none
  | none => none

/-- `UnparkInOrder::pop_front` by thread `cur`: asserts the heap is
nonempty, the root's thread is the caller and the root's ticket is
`expected`, then pops the root. -/
def popFront (h : List (Nat × Nat)) (expected cur : Nat) :
    Option (List (Nat × Nat)) :=
  match h with
  | [] => none
  | (id, t) :: rest => if t = cur ∧ id = expected then some rest else none

/-- Outcome of the attach handshake (`join_initialized_at`). -/
inductive JoinOutcome where
  | joined
  | unknownMagic (v : Nat)
  | timeout
deriving Repr, DecidableEq

/-- The poll loop of `join_initialized_at`: `reads i` is the value the
`i`-th load of `magic` observes.  A zero read sleeps 1 ms and retries,
`0xcafebabe` succeeds, any other value errors immediately; exhausting the
1000 attempts times out. -/
def joinLoop (reads : Nat → Nat) (i : Nat) : Nat → JoinOutcome
  | 0 => .timeout
  | n + 1 =>
    let v := reads i
    if v = 0 then joinLoop reads (i + 1) n
    else if v = 0xcafebabe then .joined
    else .unknownMagic v

/-- `join_initialized_at` (the polling part of `open_existing`/attach):
up to 1000 polls of `magic` at 1 ms intervals. -/
def joinInitializedAt (reads : Nat → Nat) : JoinOutcome :=
  joinLoop reads 0 1000

/-- The cleanup flags carried by `SharedMemPipePtr`. -/
structure PtrFlags where
  closeSemaphores : Bool
  tombstoneOnDrop : Bool
  munmap : Bool
deriving Repr, DecidableEq

/-- Flags set by `SharedMemPipePtr::post_mmap`. -/
def postMmapFlags : PtrFlags :=
  { closeSemaphores := false, tombstoneOnDrop := true, munmap := true }

/-- Flags set by `post_init_created` (the owner-side handle). -/
def postInitCreated (f : PtrFlags) : PtrFlags :=
  { closeSemaphores := true, tombstoneOnDrop := true, munmap := f.munmap }

/-- Flags set by `post_init_joined` (the worker-side handle). -/
def postInitJoined (f : PtrFlags) : PtrFlags :=
  { closeSemaphores := true, tombstoneOnDrop := false, munmap := f.munmap }

/-- Flags of the owner-side handle produced by `create`. -/
def ownerFlags : PtrFlags := postInitCreated postMmapFlags

/-- Flags of the worker-side handle produced by `open_existing`. -/
def workerFlags : PtrFlags := postInitJoined postMmapFlags

/-- Observable effects of `Drop for SharedMemPipePtr`. -/
structure DropEffect where
  magicStored : Option Nat
  closedFds : Bool
  unmapped : Bool
deriving Repr, DecidableEq

/-- `Drop for SharedMemPipePtr`: close the two wakeup fds when
`close_semaphores` is set, store the tombstone into `magic` when
`tombstone_on_drop` is set, and unmap when `munmap` is set. -/
def dropPtr (f : PtrFlags) : DropEffect :=
  { closedFds := f.closeSemaphores
  , magicStored := if f.tombstoneOnDrop then some 0xffffffff else none
  , unmapped := f.munmap }

/-- Modelled from the spec: the single-thread echo scenario (spec S1 and
testable property 1).  The owner issues `request_response` on a fresh
region: `send_request` runs, then the worker reads the frame length, drains
the payload with `read_exact` (skipped for an empty frame), replies with
`write_all w`, and the owner — whose ticket equals `next = 0` so the
wait-for-turn phase is skipped — runs `recv_response` into a buffer of
`n` bytes.  Returns the frame length the worker saw, the payload it
drained, the owner's response bytes and the returned ticket. -/
def echoScenario (req w : List Nat) (n : Nat) :
    Option (Nat × List Nat × List Nat × Nat) :=
  match sendRequest initShm 0 req with
  | none => none
  | some sr =>
    if sr.ok then
      match readNextFrameLen sr.shm none with
      | some (Except.ok len, r1, st1) =>
        let afterRead : Option (List Nat × Shm) :=
          if len = 0 then some ([], st1)
          else match readExact st1 r1 len with
               | some (_, payload, _, st2) => some (payload, st2)
               | none => none
        match afterRead with
        | none => none
        | some (payload, st2) =>
          match writeAll st2 w with
          | none => none
          | some (_, _, st3) =>
            if sr.ticket = 0 then
              match recvResponse st3 n with
              | none => none
              | some (resp, _) => some (len, payload, resp, sr.ticket)
            else none
      | _ => none
    else none

/-! Helper lemmas. -/

theorem u64le_length (n : Nat) : (u64le n).length = 8 := rfl

theorem leVal8_u64le (n : Nat) (h : n < 2^64) : leVal8 (u64le n) = n := by
  simp only [u64le, leVal8, List.getD]
  simp only [List.get?]
  norm_num
  omega

theorem u64le_drop4_zero (n : Nat) (h : n < 2^32) :
    (u64le n).drop 4 = [0, 0, 0, 0] := by
  simp only [u64le]
  norm_num
  refine ⟨?_, ?_, ?_, ?_⟩ <;> omega

theorem u64le_drop4_ne (n : Nat) (hlo : 2^32 ≤ n) (hhi : n < 2^64) :
    (u64le n).drop 4 ≠ [0, 0, 0, 0] := by
  simp only [u64le]
  norm_num
  intro h1 h2 h3 h4
  omega

theorem pushSlice_of_fits (rb : Rb) (src : List Nat)
    (h : rb.data.length + src.length ≤ rb.cap) :
    rb.pushSlice src = ({ rb with data := rb.data ++ src }, src.length) := by
  have hmin : min (rb.cap - rb.data.length) src.length = src.length := by omega
  simp [Rb.pushSlice, hmin]

theorem sendLoop_of_fits (fuel : Nat) (rb : Rb) (buf : List Nat) (mw : Bool)
    (posts : Nat) (h : rb.data.length + buf.length ≤ rb.cap) :
    sendLoop (fuel + 1) rb buf mw posts
      = ⟨{ rb with data := rb.data ++ buf }, mw, posts, true⟩ := by
  simp [sendLoop, pushSlice_of_fits rb buf h, List.drop_length]

theorem sendRequest_of_fits (st : Shm) (c : Nat) (req : List Nat)
    (hfit : st.toWorker.data.length + (8 + req.length) ≤ st.toWorker.cap)
    (h64 : req.length < 2^64) :
    sendRequest st c req = some
      { ticket := c
      , counter := wrapAdd32 c
      , postsDuring := 0
      , postsAfter := if st.toWorkerWaiters = 0 then 1 else 0
      , ok := true
      , shm := { st with
                   toWorkerWaiters := wrapAdd32 st.toWorkerWaiters
                 , toWorker := { st.toWorker with
                     data := st.toWorker.data ++ (u64le req.length ++ req) }
                 , notifyWorkerSem := st.notifyWorkerSem
                     + (if st.toWorkerWaiters = 0 then 1 else 0) } } := by
  have hhead : st.toWorker.data.length + (u64le req.length).length ≤ st.toWorker.cap := by
    rw [u64le_length]; omega
  have h1 := sendLoop_of_fits 2 st.toWorker (u64le req.length)
    (decide (st.toWorkerWaiters = 0)) 0 hhead
  have hbody : (st.toWorker.data ++ u64le req.length).length + req.length
      ≤ st.toWorker.cap := by
    rw [List.length_append, u64le_length]; omega
  have h2 := sendLoop_of_fits 2
    { st.toWorker with data := st.toWorker.data ++ u64le req.length }
    req (decide (st.toWorkerWaiters = 0)) 0 hbody
  simp only [sendRequest, u64TryFrom, h64, if_pos, h1, h2]
  by_cases hw : st.toWorkerWaiters = 0 <;>
    simp [hw, List.append_assoc]

theorem popSlice_eq (rb : Rb) (len : Nat) :
    rb.popSlice len
      = ({ rb with data := rb.data.drop (min len rb.data.length) },
         rb.data.take (min len rb.data.length)) := rfl

theorem recv_of_avail (st : Shm) (bufLen readMoreThan : Nat) (canWait : Bool)
    (h : readMoreThan < min bufLen st.toWorker.data.length) :
    recv st bufLen readMoreThan canWait
      = some (st.toWorker.data.take (min bufLen st.toWorker.data.length),
              { st with toWorker := { st.toWorker with
                  data := st.toWorker.data.drop (min bufLen st.toWorker.data.length) } }) := by
  have hlen : (st.toWorker.data.take (min bufLen st.toWorker.data.length)).length
      = min bufLen st.toWorker.data.length := by
    rw [List.length_take]; omega
  simp only [recv, recvLoop, popSlice_eq, List.length_nil, Nat.sub_zero,
    List.nil_append]
  rw [if_pos]
  rw [hlen]; exact h

theorem recv_header (st : Shm) (L : Nat) (rest : List Nat) (canWait : Bool)
    (hdata : st.toWorker.data = u64le L ++ rest) :
    recv st 8 7 canWait
      = some (u64le L,
              { st with toWorker := { st.toWorker with data := rest } }) := by
  have hlen : st.toWorker.data.length = 8 + rest.length := by
    rw [hdata, List.length_append, u64le_length]
  have hmin : min 8 st.toWorker.data.length = 8 := by omega
  have h := recv_of_avail st 8 7 canWait (by omega)
  rw [h, hmin, hdata]
  have ht : (u64le L ++ rest).take 8 = u64le L := by
    have := List.take_left (u64le L) rest
    rwa [u64le_length] at this
  have hd : (u64le L ++ rest).drop 8 = rest := by
    have := List.drop_left (u64le L) rest
    rwa [u64le_length] at this
  rw [ht, hd]

theorem readNextFrameLen_inProgress (st : Shm) (flen rem : Nat) :
    readNextFrameLen st (some (flen, rem))
      = some (Except.error rem, some (flen, rem), st) := rfl

theorem readNextFrameLen_fresh (st : Shm) (L : Nat) (rest : List Nat)
    (hdata : st.toWorker.data = u64le L ++ rest) (h32 : L < 2^32) :
    readNextFrameLen st none
      = some (Except.ok L, some (L, L),
              { st with toWorker := { st.toWorker with data := rest } }) := by
  have hv : leVal8 (u64le L) = L := leVal8_u64le L (by omega)
  simp only [readNextFrameLen, workerRead, recv_header st L rest true hdata,
    u64le_length, u64le_drop4_zero L h32, hv, h32, workerReadBody,
    if_pos, if_true]

theorem readExact_of_avail (st : Shm) (flen rem bufLen : Nat)
    (h1 : 1 ≤ rem) (h2 : rem ≤ bufLen) (h3 : rem = st.toWorker.data.length) :
    readExact st (some (flen, rem)) bufLen
      = some (rem, st.toWorker.data, none,
              { st with toWorker := { st.toWorker with data := [] } }) := by
  have hmin : min rem st.toWorker.data.length = rem := by omega
  have h := recv_of_avail st rem (rem - 1) false (by omega)
  rw [hmin] at h
  have htake : st.toWorker.data.take rem = st.toWorker.data := by
    apply List.take_of_length_le; omega
  have hdrop : st.toWorker.data.drop rem = [] := by
    apply List.drop_eq_nil_of_le; omega
  rw [htake, hdrop] at h
  simp only [readExact, if_pos h2, h]
  rw [if_neg (by omega), if_pos (by omega)]

theorem writeAll_of_fits (st : Shm) (buf : List Nat)
    (h : st.fromWorker.data.length + buf.length ≤ st.fromWorker.cap) :
    writeAll st buf
      = some (buf.length, [Ev.postOwner, Ev.decWaiters],
              { st with
                  fromWorker := { st.fromWorker with
                    data := st.fromWorker.data ++ buf }
                , notifyOwnerSem := st.notifyOwnerSem + 1
                , toWorkerWaiters := wrapSub32 st.toWorkerWaiters }) := by
  simp [writeAll, writeAllLoop, pushSlice_of_fits st.fromWorker buf h,
    List.drop_length, USE_EVENTFD_ON_RESPONSE]

theorem popRespLoop_of_avail (st : Shm) (n : Nat)
    (h : n ≤ st.fromWorker.data.length) :
    popRespLoop 3 st [] n
      = some (st.fromWorker.data.take n,
              { st with fromWorker := { st.fromWorker with
                  data := st.fromWorker.data.drop n } }) := by
  have hmin : min n st.fromWorker.data.length = n := by omega
  have hlen : (st.fromWorker.data.take n).length = n := by
    rw [List.length_take]; omega
  simp only [popRespLoop, popSlice_eq, List.length_nil, Nat.sub_zero,
    List.nil_append, hmin]
  rw [if_pos hlen]

theorem recvResponse_of_avail (st : Shm) (n k : Nat)
    (hsem : st.notifyOwnerSem = k + 1) (h : n ≤ st.fromWorker.data.length) :
    recvResponse st n
      = some (st.fromWorker.data.take n,
              { st with notifyOwnerSem := k
                      , fromWorker := { st.fromWorker with
                          data := st.fromWorker.data.drop n } }) := by
  simp only [recvResponse, USE_EVENTFD_ON_RESPONSE, if_true, hsem]
  exact popRespLoop_of_avail { st with notifyOwnerSem := k } n h

theorem sendLoop_posts_bound (fuel : Nat) :
    ∀ (rb : Rb) (buf : List Nat) (mw : Bool) (posts : Nat),
      (sendLoop fuel rb buf mw posts).posts
          + (if (sendLoop fuel rb buf mw posts).mw = true then 1 else 0)
        ≤ posts + (if mw = true then 1 else 0) := by
  induction fuel with
  | zero => intro rb buf mw posts; simp [sendLoop]
  | succ n ih =>
    intro rb buf mw posts
    have hstep : sendLoop (n + 1) rb buf mw posts
        = (if (buf.drop (rb.pushSlice buf).2).isEmpty
           then (⟨(rb.pushSlice buf).1, mw, posts, true⟩ : LoopOut)
           else if (rb.pushSlice buf).2 = 0 then
             (if mw then
                sendLoop n (rb.pushSlice buf).1 (buf.drop (rb.pushSlice buf).2)
                  false (posts + 1)
              else
                sendLoop n (rb.pushSlice buf).1 (buf.drop (rb.pushSlice buf).2)
                  mw posts)
           else sendLoop n (rb.pushSlice buf).1 (buf.drop (rb.pushSlice buf).2)
                  mw posts) := rfl
    rw [hstep]
    by_cases he : (buf.drop (rb.pushSlice buf).2).isEmpty = true
    · rw [if_pos he]
    · rw [if_neg he]
      by_cases hz : (rb.pushSlice buf).2 = 0
      · rw [if_pos hz]
        cases mw with
        | true =>
          have h := ih (rb.pushSlice buf).1 (buf.drop (rb.pushSlice buf).2)
            false (posts + 1)
          simp only [Bool.false_eq_true, if_false] at h
          simp only [eq_self_iff_true, if_true]
          omega
        | false =>
          rw [if_neg (by simp : ¬(false = true))]
          have h := ih (rb.pushSlice buf).1 (buf.drop (rb.pushSlice buf).2)
            false posts
          simpa using h
      · rw [if_neg hz]
        exact ih _ _ _ _

theorem sendLoop_data_extends (fuel : Nat) :
    ∀ (rb : Rb) (buf : List Nat) (mw : Bool) (posts : Nat),
      ∃ ex, (sendLoop fuel rb buf mw posts).rb.data = rb.data ++ ex := by
  induction fuel with
  | zero => intro rb buf mw posts; exact ⟨[], by simp [sendLoop]⟩
  | succ n ih =>
    intro rb buf mw posts
    simp only [sendLoop]
    have hpush : (rb.pushSlice buf).1.data
        = rb.data ++ buf.take (min (rb.cap - rb.data.length) buf.length) := rfl
    split
    · exact ⟨_, hpush⟩
    · split
      · split
        · obtain ⟨ex, hex⟩ := ih (rb.pushSlice buf).1 (buf.drop (rb.pushSlice buf).2)
            false (posts + 1)
          exact ⟨_, by rw [hex, hpush, List.append_assoc]⟩
        · obtain ⟨ex, hex⟩ := ih (rb.pushSlice buf).1 (buf.drop (rb.pushSlice buf).2)
            mw posts
          exact ⟨_, by rw [hex, hpush, List.append_assoc]⟩
      · obtain ⟨ex, hex⟩ := ih (rb.pushSlice buf).1 (buf.drop (rb.pushSlice buf).2)
          mw posts
        exact ⟨_, by rw [hex, hpush, List.append_assoc]⟩

theorem sendRequest_header_take (st : Shm) (c : Nat) (req : List Nat)
    (hempty : st.toWorker.data = []) (hcap : 8 ≤ st.toWorker.cap)
    (h64 : req.length < 2^64) :
    (sendRequest st c req).map (fun r => r.shm.toWorker.data.take 8)
      = some (u64le req.length) := by
  have hfit : st.toWorker.data.length + (u64le req.length).length ≤ st.toWorker.cap := by
    rw [hempty, u64le_length]; simpa using hcap
  have h1 := sendLoop_of_fits 2 st.toWorker (u64le req.length)
    (decide (st.toWorkerWaiters = 0)) 0 hfit
  norm_num at h1
  have hd1 : (sendLoop 3 st.toWorker (u64le req.length)
      (decide (st.toWorkerWaiters = 0)) 0).rb.data = u64le req.length := by
    rw [h1, hempty]
    simp
  obtain ⟨ex, hex⟩ := sendLoop_data_extends 3
    (sendLoop 3 st.toWorker (u64le req.length) (decide (st.toWorkerWaiters = 0)) 0).rb
    req
    (sendLoop 3 st.toWorker (u64le req.length) (decide (st.toWorkerWaiters = 0)) 0).mw
    (sendLoop 3 st.toWorker (u64le req.length) (decide (st.toWorkerWaiters = 0)) 0).posts
  rw [hd1] at hex
  simp only [sendRequest, u64TryFrom, h64, if_pos, Option.map_some']
  rw [hex]
  have ht := List.take_left (u64le req.length) ex
  rw [u64le_length] at ht
  rw [ht]

theorem joinLoop_timeout (reads : Nat → Nat) :
    ∀ (n i : Nat), (∀ k, k < n → reads (i + k) = 0) →
      joinLoop reads i n = JoinOutcome.timeout := by
  intro n
  induction n with
  | zero => intro i _; rfl
  | succ m ih =>
    intro i h
    have h0 : reads i = 0 := by simpa using h 0 (by omega)
    simp only [joinLoop, h0, if_pos, if_true]
    exact ih (i + 1) fun k hk => by
      have := h (k + 1) (by omega)
      rwa [show i + (k + 1) = i + 1 + k by omega] at this

theorem joinLoop_advance (reads : Nat → Nat) :
    ∀ (j n i : Nat), j ≤ n → (∀ k, k < j → reads (i + k) = 0) →
      joinLoop reads i n = joinLoop reads (i + j) (n - j) := by
  intro j
  induction j with
  | zero => intro n i _ _; simp
  | succ m ih =>
    intro n i hle h
    match n, hle with
    | n + 1, hle =>
      have h0 : reads i = 0 := by simpa using h 0 (by omega)
      simp only [joinLoop, h0, if_pos, if_true]
      have := ih n (i + 1) (by omega) fun k hk => by
        have := h (k + 1) (by omega)
        rwa [show i + (k + 1) = i + 1 + k by omega] at this
      rw [this, show i + 1 + m = i + (m + 1) by omega,
        show n - m = n + 1 - (m + 1) by omega]

/-! Claim theorems. -/

/-- C4, counterexample: the claim states that dropping the worker-side
(joined) handle does not close the wakeup file descriptors, but
`post_init_joined` sets `close_semaphores` to `true`, so the worker-side
drop does close them. -/
theorem joined_drop_counterexample :
    (dropPtr workerFlags).closedFds = true ∧ (true : Bool) ≠ false := by
  exact ⟨rfl, by decide⟩

/-- C4, amended: dropping the owner-side handle stores the tombstone
`0xFFFFFFFF` into magic, closes the two wakeup file descriptors and
unmaps; dropping the worker-side (joined) handle closes the two wakeup
file descriptors and unmaps but never writes `magic`. -/
theorem drop_by_role_amended :
    dropPtr ownerFlags
        = { magicStored := some 0xffffffff, closedFds := true, unmapped := true }
    ∧ dropPtr workerFlags
        = { magicStored := none, closedFds := true, unmapped := true } := by
  exact ⟨rfl, rfl⟩

/-- C5: the attach handshake (`join_initialized_at`) polls `magic` up to
1000 times, skipping over zero reads; it succeeds as soon as it reads
`0xCAFEBABE`, fails with the unknown-magic error immediately on any other
nonzero value, and times out when all 1000 polls read zero. -/
theorem attach_handshake_trichotomy :
    ∀ reads : Nat → Nat,
      ((∀ i, i < 1000 → reads i = 0) →
        joinInitializedAt reads = JoinOutcome.timeout)
      ∧ (∀ j, j < 1000 → (∀ i, i < j → reads i = 0) → reads j = 0xcafebabe →
          joinInitializedAt reads = JoinOutcome.joined)
      ∧ (∀ j, j < 1000 → (∀ i, i < j → reads i = 0) → reads j ≠ 0 →
          reads j ≠ 0xcafebabe →
          joinInitializedAt reads = JoinOutcome.unknownMagic (reads j)) := by
  intro reads
  refine ⟨?_, ?_, ?_⟩
  · intro h
    exact joinLoop_timeout reads 1000 0 fun k hk => by simpa using h k hk
  · intro j hj h hmagic
    have hadv := joinLoop_advance reads j 1000 0 (by omega)
      (fun k hk => by simpa using h k hk)
    rw [joinInitializedAt, hadv]
    obtain ⟨m, hm⟩ : ∃ m, 1000 - j = m + 1 := ⟨1000 - j - 1, by omega⟩
    rw [hm]
    simp only [joinLoop, Nat.zero_add, hmagic]
    norm_num
  · intro j hj h hnz hncafe
    have hadv := joinLoop_advance reads j 1000 0 (by omega)
      (fun k hk => by simpa using h k hk)
    rw [joinInitializedAt, hadv]
    obtain ⟨m, hm⟩ : ∃ m, 1000 - j = m + 1 := ⟨1000 - j - 1, by omega⟩
    rw [hm]
    simp only [joinLoop, Nat.zero_add]
    rw [if_neg hnz, if_neg hncafe]

/-- C5 witness: the three handshake outcomes at concrete read sequences —
always-zero times out, an immediate `0xCAFEBABE` joins, and an immediate
tombstone value is reported as unknown magic. -/
theorem attach_handshake_trichotomy_witness :
    joinInitializedAt (fun _ => 0) = JoinOutcome.timeout
    ∧ joinInitializedAt (fun _ => 0xcafebabe) = JoinOutcome.joined
    ∧ joinInitializedAt (fun _ => 0xffffffff)
        = JoinOutcome.unknownMagic 0xffffffff := by
  refine ⟨?_, ?_, ?_⟩
  · exact (attach_handshake_trichotomy (fun _ => 0)).1 fun i _ => rfl
  · exact (attach_handshake_trichotomy (fun _ => 0xcafebabe)).2.1 0 (by omega)
      (fun i hi => by omega) rfl
  · exact (attach_handshake_trichotomy (fun _ => 0xffffffff)).2.2 0 (by omega)
      (fun i hi => by omega) (by decide) (by decide)

/-- C8: the priority wakeup queue orders entries by ticket — after pushing
tickets 2 then 1 the root is the ticket-1 entry; `unpark_front t` unparks
the root's thread exactly when the root's ticket is `t` and is a no-op
otherwise, including on an empty heap; the ticket-2 entry becomes the
target only after the ticket-1 entry is popped. -/
theorem unpark_in_order_spec :
    (∀ t, unparkFront [] t = none)
    ∧ (∀ h t thr, unparkFront h t = some thr → heapPeek h = some (t, thr))
    ∧ (∀ h t id thr, heapPeek h = some (id, thr) → id ≠ t →
        unparkFront h t = none)
    ∧ (heapPeek (heapInsert (1, 11) (heapInsert (2, 12) [])) = some (1, 11)
       ∧ unparkFront (heapInsert (1, 11) (heapInsert (2, 12) [])) 1 = some 11
       ∧ unparkFront (heapInsert (1, 11) (heapInsert (2, 12) [])) 2 = none
       ∧ popFront (heapInsert (1, 11) (heapInsert (2, 12) [])) 1 11
           = some [(2, 12)]
       ∧ unparkFront [(2, 12)] 2 = some 12) := by
  refine ⟨fun t => rfl, ?_, ?_, by decide⟩
  · intro h t thr hu
    match h with
    | [] => simp [unparkFront] at hu
    | (id, t0) :: rest =>
      simp only [unparkFront, List.head?] at hu
      by_cases hid : id = t
      · rw [if_pos hid] at hu
        cases hu
        rw [hid]
        rfl
      · rw [if_neg hid] at hu
        cases hu
  · intro h t id thr hpeek hne
    match h with
    | [] => simp [heapPeek] at hpeek
    | (id0, t0) :: rest =>
      simp only [heapPeek, List.head?, Option.some.injEq, Prod.mk.injEq] at hpeek
      simp only [unparkFront, List.head?]
      rw [if_neg]
      rw [hpeek.1]
      exact hne

/-- C8 witness: `unpark_front` applied through the general clauses of the
specification at a concrete singleton heap. -/
theorem unpark_in_order_spec_witness :
    heapPeek [(3, 7)] = some (3, 7) ∧ unparkFront [(3, 7)] 4 = none := by
  exact ⟨unpark_in_order_spec.2.1 [(3, 7)] 3 7 rfl,
         unpark_in_order_spec.2.2.1 [(3, 7)] 4 3 7 rfl (by decide)⟩

/-- C6: `read_next_frame_len` returns the remaining byte count as an error
exactly when a frame is in progress (leaving the state untouched);
otherwise it consumes exactly the 8 header bytes from the to-worker ring
(with sleeping permitted), the upper 4 header bytes being zero, stores
`(length, length)` and returns `Ok length`. -/
theorem read_next_frame_len_spec :
    (∀ st flen rem, readNextFrameLen st (some (flen, rem))
        = some (Except.error rem, some (flen, rem), st))
    ∧ (∀ st L rest, st.toWorker.data = u64le L ++ rest → L < 2^32 →
        readNextFrameLen st none
          = some (Except.ok L, some (L, L),
              { st with toWorker := { st.toWorker with data := rest } })) := by
  exact ⟨fun st flen rem => rfl,
         fun st L rest hdata h32 => readNextFrameLen_fresh st L rest hdata h32⟩

/-- C6 witness: a frame in progress reports its remaining bytes as the
error, and a fresh 4-byte frame header is consumed and stored. -/
theorem read_next_frame_len_spec_witness :
    readNextFrameLen initShm (some (5, 3))
        = some (Except.error 3, some (5, 3), initShm)
    ∧ readNextFrameLen
        { initShm with toWorker := ⟨TO_WORKER_LEN, u64le 4 ++ [9, 9, 9, 9]⟩ } none
        = some (Except.ok 4, some (4, 4),
            { initShm with toWorker := ⟨TO_WORKER_LEN, [9, 9, 9, 9]⟩ }) := by
  exact ⟨read_next_frame_len_spec.1 initShm 5 3,
         read_next_frame_len_spec.2
           { initShm with toWorker := ⟨TO_WORKER_LEN, u64le 4 ++ [9, 9, 9, 9]⟩ }
           4 [9, 9, 9, 9] rfl (by norm_num)⟩

/-- C7: `write_all` pushes every byte of its buffer into the from-worker
ring and returns the buffer's length; on completion the emitted effects
are exactly `[postOwner, decWaiters]` — a single `notify_owner` post
strictly preceding the `to_worker_waiters` decrement. -/
theorem write_all_spec (st : Shm) (buf : List Nat)
    (h : st.fromWorker.data.length + buf.length ≤ st.fromWorker.cap) :
    writeAll st buf
      = some (buf.length, [Ev.postOwner, Ev.decWaiters],
              { st with
                  fromWorker := { st.fromWorker with
                    data := st.fromWorker.data ++ buf }
                , notifyOwnerSem := st.notifyOwnerSem + 1
                , toWorkerWaiters := wrapSub32 st.toWorkerWaiters }) := by
  exact writeAll_of_fits st buf h

/-- C7 witness: a 2-byte reply on a fresh region is fully pushed, posts
`notify_owner` once and then decrements the waiter counter. -/
theorem write_all_spec_witness :
    0 + 2 ≤ FROM_WORKER_LEN
    ∧ writeAll { initShm with toWorkerWaiters := 1 } [7, 8]
        = some (2, [Ev.postOwner, Ev.decWaiters],
                { initShm with
                    fromWorker := ⟨FROM_WORKER_LEN, [7, 8]⟩
                  , notifyOwnerSem := 1
                  , toWorkerWaiters := wrapSub32 1 }) := by
  refine ⟨by norm_num [FROM_WORKER_LEN], ?_⟩
  have h := write_all_spec { initShm with toWorkerWaiters := 1 } [7, 8]
    (by norm_num [initShm, FROM_WORKER_LEN])
  simpa [initShm] using h

/-- C9: `read_exact` returns exactly the frame's remaining count `r` and
clears the frame when a frame is in progress, `r ≤ buf.len()` and
`1 ≤ r`; it panics (`none`) when no frame is in progress, when the buffer
is too small, and — because `remaining as usize - 1` underflows — whenever
the current frame has `remaining = 0`, so a zero-length frame can never be
drained through `read_exact`. -/
theorem read_exact_spec :
    (∀ st flen rem bufLen, 1 ≤ rem → rem ≤ bufLen →
        rem = st.toWorker.data.length →
        readExact st (some (flen, rem)) bufLen
          = some (rem, st.toWorker.data, none,
              { st with toWorker := { st.toWorker with data := [] } }))
    ∧ (∀ st flen bufLen, readExact st (some (flen, 0)) bufLen = none)
    ∧ (∀ st bufLen, readExact st none bufLen = none)
    ∧ (∀ st flen rem bufLen, bufLen < rem →
        readExact st (some (flen, rem)) bufLen = none) := by
  refine ⟨?_, ?_, fun st bufLen => rfl, ?_⟩
  · intro st flen rem bufLen h1 h2 h3
    exact readExact_of_avail st flen rem bufLen h1 h2 h3
  · intro st flen bufLen
    simp [readExact]
  · intro st flen rem bufLen hlt
    simp only [readExact]
    rw [if_neg (by omega)]

/-- C9 witness: a 3-byte frame is drained exactly by a large-enough
buffer, while a zero-remaining frame and a missing frame panic. -/
theorem read_exact_spec_witness :
    readExact { initShm with toWorker := ⟨TO_WORKER_LEN, [5, 6, 7]⟩ }
        (some (3, 3)) 8
      = some (3, [5, 6, 7], none, { initShm with toWorker := ⟨TO_WORKER_LEN, []⟩ })
    ∧ readExact initShm (some (0, 0)) 8 = none
    ∧ readExact initShm none 8 = none := by
  refine ⟨?_, read_exact_spec.2.1 initShm 0 8, read_exact_spec.2.2.1 initShm 8⟩
  have h := read_exact_spec.1 { initShm with toWorker := ⟨TO_WORKER_LEN, [5, 6, 7]⟩ }
    3 3 8 (by norm_num) (by norm_num) rfl
  simpa using h

/-- C10: the `expect("message cannot be more than 4GB")` branch of
`send_request` is unreachable for every representable `usize` length, so a
request of `2^32` bytes or more is not rejected at the sender; its frame
header then has nonzero upper 4 bytes, and only the worker-side assertion
in `read` (`none` here) detects it. -/
theorem oversized_request_unreachable_expect :
    (∀ len, len < 2^64 → u64TryFrom len = some len)
    ∧ (∀ st c req, req.length < 2^64 → (sendRequest st c req).isSome = true)
    ∧ (∀ L, 2^32 ≤ L → L < 2^64 → (u64le L).drop 4 ≠ [0, 0, 0, 0])
    ∧ (∀ st L rest, st.toWorker.data = u64le L ++ rest →
        (u64le L).drop 4 ≠ [0, 0, 0, 0] →
        readNextFrameLen st none = none) := by
  refine ⟨?_, ?_, ?_, ?_⟩
  · intro len h
    rw [u64TryFrom, if_pos h]
  · intro st c req h
    simp only [sendRequest, u64TryFrom, h, if_pos, Option.isSome_some]
  · intro L hlo hhi
    exact u64le_drop4_ne L hlo hhi
  · intro st L rest hdata hne
    simp only [readNextFrameLen, workerRead, recv_header st L rest true hdata,
      u64le_length, if_neg hne, if_pos]

/-- C10 witness: a `2^32`-byte request is accepted by `send_request`, its
header's upper four bytes are nonzero, and the worker-side header check
panics on such a header. -/
theorem oversized_request_unreachable_expect_witness :
    u64TryFrom 4 = some 4
    ∧ (sendRequest initShm 0 (List.replicate (2^32) 0)).isSome = true
    ∧ (u64le (2^32)).drop 4 ≠ [0, 0, 0, 0]
    ∧ readNextFrameLen
        { initShm with toWorker := ⟨TO_WORKER_LEN, u64le (2^32) ++ []⟩ } none
        = none := by
  refine ⟨oversized_request_unreachable_expect.1 4 (by norm_num),
          oversized_request_unreachable_expect.2.1 initShm 0
            (List.replicate (2^32) 0) (by rw [List.length_replicate]; norm_num),
          oversized_request_unreachable_expect.2.2.1 (2^32) (by norm_num)
            (by norm_num),
          oversized_request_unreachable_expect.2.2.2
            { initShm with toWorker := ⟨TO_WORKER_LEN, u64le (2^32) ++ []⟩ }
            (2^32) [] rfl
            (oversized_request_unreachable_expect.2.2.1 (2^32) (by norm_num)
              (by norm_num))⟩

/-- C2, counterexample: the claim quantifies over every request, but a
request of `2^32` bytes is framed with a nonzero fifth length byte — the
upper 32 bits of the little-endian length are not zero. -/
theorem send_request_frame_counterexample :
    ((sendRequest initShm 0 (List.replicate (2^32) 0)).map
        (fun r => r.shm.toWorker.data.take 8)).map (List.drop 4)
      = some [1, 0, 0, 0]
    ∧ ([1, 0, 0, 0] : List Nat) ≠ [0, 0, 0, 0] := by
  constructor
  · rw [sendRequest_header_take initShm 0 (List.replicate (2^32) 0) rfl
      (by norm_num [initShm, TO_WORKER_LEN])
      (by rw [List.length_replicate]; norm_num)]
    rw [Option.map_some', List.length_replicate]
    rw [show (u64le (2^32)).drop 4 = [1, 0, 0, 0] from by norm_num [u64le]]
  · decide

/-- C2, amended: for every request shorter than `2^32` bytes (and fitting
the free space of the to-worker ring), `send_request` appends to the ring
an 8-byte little-endian length whose upper 4 bytes are zero, followed by
exactly the payload bytes. -/
theorem send_request_frame_amended (st : Shm) (c : Nat) (req : List Nat)
    (hfit : st.toWorker.data.length + (8 + req.length) ≤ st.toWorker.cap)
    (h32 : req.length < 2^32) :
    (sendRequest st c req).map (fun r => (r.shm.toWorker.data, r.ok))
      = some (st.toWorker.data ++ (u64le req.length ++ req), true)
    ∧ (u64le req.length).drop 4 = [0, 0, 0, 0] := by
  rw [sendRequest_of_fits st c req hfit (by omega)]
  exact ⟨rfl, u64le_drop4_zero req.length h32⟩

/-- C2 witness: the S1 request `[1,2,3,4]` is framed as the zero-padded
length 4 followed by the payload. -/
theorem send_request_frame_amended_witness :
    (sendRequest initShm 0 [1, 2, 3, 4]).map (fun r => (r.shm.toWorker.data, r.ok))
      = some (u64le 4 ++ [1, 2, 3, 4], true)
    ∧ (u64le 4).drop 4 = [0, 0, 0, 0] := by
  have h := send_request_frame_amended initShm 0 [1, 2, 3, 4]
    (by norm_num [initShm, TO_WORKER_LEN]) (by norm_num)
  simpa [initShm] using h

/-- C3, counterexample: the claim's step e says that when no wakeup was
sent during writing, `notify_worker` is posted once after the producer
lock is released; but a request arriving while `to_worker_waiters` is
already nonzero sends no wakeup during writing and none afterwards
either. -/
theorem send_request_wakeup_counterexample :
    (sendRequest { initShm with toWorkerWaiters := 1 } 0 [1, 2, 3]).map
        (fun r => (r.postsDuring, r.postsAfter)) = some (0, 0)
    ∧ (0 : Nat) ≠ 1 := by
  exact ⟨by decide, by decide⟩

/-- C3, amended: `notify_worker` is posted at most once per request; when
the pushes fit without ever observing a full ring, no wakeup is sent
during writing and, after the lock is released, one wakeup is posted
exactly when the pre-increment value of `to_worker_waiters` was zero. -/
theorem send_request_wakeup_amended :
    (∀ st c req, ((sendRequest st c req).map
        (fun r => r.postsDuring + r.postsAfter)).getD 0 ≤ 1)
    ∧ (∀ st c req,
        st.toWorker.data.length + (8 + req.length) ≤ st.toWorker.cap →
        req.length < 2^64 →
        (sendRequest st c req).map (fun r => (r.postsDuring, r.postsAfter))
          = some (0, if st.toWorkerWaiters = 0 then 1 else 0)) := by
  constructor
  · intro st c req
    by_cases h64 : req.length < 2^64
    · simp only [sendRequest, u64TryFrom, h64, if_pos, Option.map_some',
        Option.getD_some]
      have hb1 := sendLoop_posts_bound 3 st.toWorker (u64le req.length)
        (decide (st.toWorkerWaiters = 0)) 0
      have hb2 := sendLoop_posts_bound 3
        (sendLoop 3 st.toWorker (u64le req.length)
          (decide (st.toWorkerWaiters = 0)) 0).rb
        req
        (sendLoop 3 st.toWorker (u64le req.length)
          (decide (st.toWorkerWaiters = 0)) 0).mw
        (sendLoop 3 st.toWorker (u64le req.length)
          (decide (st.toWorkerWaiters = 0)) 0).posts
      have hb0 : (if decide (st.toWorkerWaiters = 0) = true then 1 else 0) ≤ 1 := by
        by_cases hw : st.toWorkerWaiters = 0 <;> simp [hw]
      omega
    · have hnone : u64TryFrom req.length = none := by
        rw [u64TryFrom, if_neg h64]
      simp [sendRequest, hnone]
  · intro st c req hfit h64
    rw [sendRequest_of_fits st c req hfit h64]
    rfl

/-- C3 witness: on a fresh region (no waiters) a small fitting request
sends no wakeup during writing and exactly one after the lock release. -/
theorem send_request_wakeup_amended_witness :
    ((sendRequest initShm 0 [1, 2]).map
        (fun r => r.postsDuring + r.postsAfter)).getD 0 ≤ 1
    ∧ (sendRequest initShm 0 [1, 2]).map (fun r => (r.postsDuring, r.postsAfter))
        = some (0, if initShm.toWorkerWaiters = 0 then 1 else 0) := by
  exact ⟨send_request_wakeup_amended.1 initShm 0 [1, 2],
         send_request_wakeup_amended.2 initShm 0 [1, 2]
           (by norm_num [initShm, TO_WORKER_LEN]) (by norm_num)⟩

/-- C1: round-trip identity in the sequential echo scenario — for a
request `req` that fits the to-worker ring and a worker reply `w` that
fits the from-worker ring, the worker observes frame length `req.length`
and payload `req`, and `request_response` fills the owner's `n`-byte
response buffer (`n ≤ w.length`) with exactly the first `n` bytes the
worker wrote, returning ticket 0. -/
theorem request_response_roundtrip (req w : List Nat) (n : Nat)
    (hreq : 8 + req.length ≤ TO_WORKER_LEN)
    (hw : w.length ≤ FROM_WORKER_LEN)
    (hn : n ≤ w.length) :
    echoScenario req w n = some (req.length, req, w.take n, 0) := by
  have hT : TO_WORKER_LEN = 131072 := by norm_num [TO_WORKER_LEN]
  have hF : FROM_WORKER_LEN = 16384 := by norm_num [FROM_WORKER_LEN]
  have hreq' : 8 + req.length ≤ 131072 := by rw [← hT]; exact hreq
  have h32 : req.length < 2^32 := by norm_num; omega
  have h64 : req.length < 2^64 := by norm_num; omega
  have hfit : initShm.toWorker.data.length + (8 + req.length)
      ≤ initShm.toWorker.cap := by
    show (List.length []) + (8 + req.length) ≤ TO_WORKER_LEN
    simpa using hreq
  have hwfit : w.length ≤ 16384 := by rw [← hF]; exact hw
  by_cases hL : req.length = 0
  · have hnil : req = [] := List.length_eq_zero.mp hL
    subst hnil
    have h1 : sendRequest initShm 0 ([] : List Nat)
        = some ⟨0, 1, 0, 1, true,
            ⟨0xcafebabe, 1, 1, 0, ⟨TO_WORKER_LEN, u64le 0⟩,
             ⟨FROM_WORKER_LEN, []⟩⟩⟩ :=
      sendRequest_of_fits initShm 0 [] hfit (by norm_num)
    have h2 : readNextFrameLen
        ⟨0xcafebabe, 1, 1, 0, ⟨TO_WORKER_LEN, u64le 0⟩, ⟨FROM_WORKER_LEN, []⟩⟩
        none
        = some (Except.ok 0, some (0, 0),
            ⟨0xcafebabe, 1, 1, 0, ⟨TO_WORKER_LEN, []⟩, ⟨FROM_WORKER_LEN, []⟩⟩) :=
      readNextFrameLen_fresh _ 0 [] (List.append_nil _).symm (by norm_num)
    have h4 : writeAll
        ⟨0xcafebabe, 1, 1, 0, ⟨TO_WORKER_LEN, []⟩, ⟨FROM_WORKER_LEN, []⟩⟩ w
        = some (w.length, [Ev.postOwner, Ev.decWaiters],
            ⟨0xcafebabe, wrapSub32 1, 1, 1, ⟨TO_WORKER_LEN, []⟩,
             ⟨FROM_WORKER_LEN, w⟩⟩) :=
      writeAll_of_fits _ w (by simpa using hw)
    have h5 : recvResponse
        ⟨0xcafebabe, wrapSub32 1, 1, 1, ⟨TO_WORKER_LEN, []⟩,
         ⟨FROM_WORKER_LEN, w⟩⟩ n
        = some (w.take n,
            ⟨0xcafebabe, wrapSub32 1, 1, 0, ⟨TO_WORKER_LEN, []⟩,
             ⟨FROM_WORKER_LEN, w.drop n⟩⟩) :=
      recvResponse_of_avail _ n 0 rfl hn
    simp [echoScenario, h1, h2, h4, h5]
  · have h1 : sendRequest initShm 0 req
        = some ⟨0, 1, 0, 1, true,
            ⟨0xcafebabe, 1, 1, 0, ⟨TO_WORKER_LEN, u64le req.length ++ req⟩,
             ⟨FROM_WORKER_LEN, []⟩⟩⟩ :=
      sendRequest_of_fits initShm 0 req hfit h64
    have h2 : readNextFrameLen
        ⟨0xcafebabe, 1, 1, 0, ⟨TO_WORKER_LEN, u64le req.length ++ req⟩,
         ⟨FROM_WORKER_LEN, []⟩⟩ none
        = some (Except.ok req.length, some (req.length, req.length),
            ⟨0xcafebabe, 1, 1, 0, ⟨TO_WORKER_LEN, req⟩, ⟨FROM_WORKER_LEN, []⟩⟩) :=
      readNextFrameLen_fresh _ req.length req rfl h32
    have h3 : readExact
        ⟨0xcafebabe, 1, 1, 0, ⟨TO_WORKER_LEN, req⟩, ⟨FROM_WORKER_LEN, []⟩⟩
        (some (req.length, req.length)) req.length
        = some (req.length, req, none,
            ⟨0xcafebabe, 1, 1, 0, ⟨TO_WORKER_LEN, []⟩, ⟨FROM_WORKER_LEN, []⟩⟩) :=
      readExact_of_avail _ req.length req.length req.length (by omega)
        (le_refl _) rfl
    have h4 : writeAll
        ⟨0xcafebabe, 1, 1, 0, ⟨TO_WORKER_LEN, []⟩, ⟨FROM_WORKER_LEN, []⟩⟩ w
        = some (w.length, [Ev.postOwner, Ev.decWaiters],
            ⟨0xcafebabe, wrapSub32 1, 1, 1, ⟨TO_WORKER_LEN, []⟩,
             ⟨FROM_WORKER_LEN, w⟩⟩) :=
      writeAll_of_fits _ w (by simpa using hw)
    have h5 : recvResponse
        ⟨0xcafebabe, wrapSub32 1, 1, 1, ⟨TO_WORKER_LEN, []⟩,
         ⟨FROM_WORKER_LEN, w⟩⟩ n
        = some (w.take n,
            ⟨0xcafebabe, wrapSub32 1, 1, 0, ⟨TO_WORKER_LEN, []⟩,
             ⟨FROM_WORKER_LEN, w.drop n⟩⟩) :=
      recvResponse_of_avail _ n 0 rfl hn
    simp [echoScenario, h1, h2, h3, h4, h5, hL]

/-- C1 witness: the literal S1 scenario — request `[1,2,3,4]`, worker
reply `[4,3,2,1]`, 4-byte response buffer: the worker reads length 4 and
payload `[1,2,3,4]`, the owner receives `[4,3,2,1]`, ticket 0. -/
theorem request_response_roundtrip_witness :
    echoScenario [1, 2, 3, 4] [4, 3, 2, 1] 4
      = some (4, [1, 2, 3, 4], [4, 3, 2, 1], 0) := by
  have h := request_response_roundtrip [1, 2, 3, 4] [4, 3, 2, 1] 4
    (by norm_num [TO_WORKER_LEN]) (by norm_num [FROM_WORKER_LEN]) (by norm_num)
  simpa using h

end Shmempipe
